import Mathlib

/-!
Verification of the smbios_util SMBIOS decoder.

The C++ sources under src/ are shallowly embedded: buffers are lists of
byte values (Nat, intended < 256) and a read past the end of a buffer
yields 0 (the record region is modelled as a zero-padded finite window).
Pointers into the buffer become indices; `std::string` values become Lean
`String`s.  Functions whose bodies live in translation units that are not
part of src/ (smbios.cpp, memory_device_entry.cpp) are modelled from the
specification text; each such definition carries a doc comment starting
with `Modelled from the spec:`.
-/

namespace smbios

/-- Byte at position `p` of a buffer; positions past the end read as zero. -/
def byteAt (buf : List Nat) (p : Nat) : Nat := buf.getD p 0

/-- The longest NUL-free run at the head of a byte list: what
`std::string(const char*)` copies when constructed from a pointer to the
first byte of `l`. -/
def firstRun (l : List Nat) : List Nat := l.takeWhile (fun b => b != 0)

/-- The NUL-terminated byte run starting at position `p` of `buf`:
`std::string(reinterpret_cast<const char*>(string_section))` in
`AbstractSMBiosEntry::parse_dmi_strings`. -/
def cstr (buf : List Nat) (p : Nat) : List Nat := firstRun (buf.drop p)

/-- Pointer advance `string_section += dmi_strings_.back().size() + 1` of
`AbstractSMBiosEntry::parse_dmi_strings`. -/
def nextPos (buf : List Nat) (p : Nat) : Nat := p + (cstr buf p).length + 1

/-- The do/while loop of `AbstractSMBiosEntry::parse_dmi_strings`
(abstract_smbios_entry.cpp lines 19-29): push the run at the current
pointer, advance past its terminator, and loop again exactly when
`string_section[0] != 0 && string_section[1] != 0`.  The loop body always
runs at least once (do/while).  `fuel` bounds the number of continuations;
the wrapper passes a provably sufficient amount. -/
def parseFrom (buf : List Nat) (p : Nat) : Nat → List (List Nat)
  | 0 => [cstr buf p]
  | fuel+1 =>
    if byteAt buf (nextPos buf p) != 0 && byteAt buf (nextPos buf p + 1) != 0 then
      cstr buf p :: parseFrom buf (nextPos buf p) fuel
    else
      [cstr buf p]

/-- The four-byte DMI record header of smbios.h (struct DMIHeader).  The
`data` pointer to the record's first byte is modelled as the record's byte
contents, `none` standing for a null pointer. -/
structure DMIHeader where
  type : Nat
  length : Nat
  handle : Nat
  data : Option (List Nat)
deriving DecidableEq

/-- Byte run to `std::string` conversion. -/
def bytesToString (l : List Nat) : String := String.mk (l.map Char.ofNat)

/-- `AbstractSMBiosEntry::parse_dmi_strings` together with the constructor
initialisation `dmi_strings_({"Not Specified"})`: the sentinel occupies
index 0; a null string section (`nullptr == string_section`) leaves only
the sentinel; otherwise the do/while loop appends parsed runs starting at
`header_->data + header_->length`. -/
def parse_dmi_strings (h : DMIHeader) : List String :=
  match h.data with
  | none => ["Not Specified"]
  | some buf => "Not Specified" :: (parseFrom buf h.length buf.length).map bytesToString

/-- `AbstractSMBiosEntry::dmi_string` (abstract_smbios_entry.cpp lines
32-38): out-of-range indices yield the string "Bad index", in-range
indices yield the stored entry. -/
def dmi_string (strings : List String) (i : Nat) : String :=
  if strings.length ≤ i then "Bad index" else strings.getD i ""

/-- Suffix left after the head run and its terminator. -/
def restOf (l : List Nat) : List Nat := l.drop ((firstRun l).length + 1)

/-- The string-table loop, rephrased on buffer suffixes with the stop
condition the source actually implements: the first run is always
appended, and the loop continues only while the two bytes at the new
position are both nonzero (so it stops as soon as either of them is
zero). -/
def amendedExtractGo : List Nat → Nat → List (List Nat)
  | l, 0 => [firstRun l]
  | l, fuel+1 =>
    if byteAt (restOf l) 0 != 0 && byteAt (restOf l) 1 != 0 then
      firstRun l :: amendedExtractGo (restOf l) fuel
    else
      [firstRun l]

/-- Amended description of the extraction loop of
`AbstractSMBiosEntry::parse_dmi_strings`, on the string section itself. -/
def amendedExtract (l : List Nat) : List (List Nat) := amendedExtractGo l l.length

/-- Modelled from the spec: the string-table extraction algorithm exactly
as section 4.5 words it, for comparison with the source loop — repeatedly
read NUL-terminated runs, appending each, "until encountering a position
where two consecutive bytes are both zero". -/
def specExtractGo (buf : List Nat) : Nat → Nat → List (List Nat)
  | _, 0 => []
  | p, fuel+1 =>
    if byteAt buf p = 0 ∧ byteAt buf (p+1) = 0 then []
    else cstr buf p :: specExtractGo buf (nextPos buf p) fuel

/-- Modelled from the spec: section-4.5 extraction starting at position
`p` of `buf`. -/
def specExtract (buf : List Nat) (p : Nat) : List (List Nat) :=
  specExtractGo buf p (buf.length + 1)

/-- struct SMBiosVersion of smbios.h (uint16 major/minor). -/
structure SMBiosVersion where
  major_version : Nat
  minor_version : Nat
deriving DecidableEq

/-- Modelled from the spec: `operator<(const SMBiosVersion&, const
SMBiosVersion&)` is declared in smbios.h but its body lives in smbios.cpp,
which is not part of src/; the spec states the ordering is lexicographic
on (major, minor). -/
def versionLt (lhs rhs : SMBiosVersion) : Bool :=
  decide (lhs.major_version < rhs.major_version ∨
    (lhs.major_version = rhs.major_version ∧ lhs.minor_version < rhs.minor_version))

/-- Modelled from the spec: `operator>(const SMBiosVersion&, const
SMBiosVersion&)`, declared in smbios.h, body in the missing smbios.cpp;
lexicographic on (major, minor), mirrored. -/
def versionGt (lhs rhs : SMBiosVersion) : Bool :=
  decide (rhs.major_version < lhs.major_version ∨
    (rhs.major_version = lhs.major_version ∧ rhs.minor_version < lhs.minor_version))

/-- Modelled from the spec: non-strict lexicographic comparison, used for
"the layout generation introduced at the highest specification version
that is ≤ the table's declared version". -/
def versionLe (lhs rhs : SMBiosVersion) : Bool :=
  decide (lhs.major_version < rhs.major_version ∨
    (lhs.major_version = rhs.major_version ∧ lhs.minor_version ≤ rhs.minor_version))

/-- Modelled from the spec: `SMBios::smbios_crc` is declared in smbios.h
("checksum from start offset to offset+length should be zero") with its
body in the missing smbios.cpp; section 4.1 specifies the unsigned 8-bit
sum of all bytes of the range [start, start+length), kept here as a
running uint8_t accumulator. -/
def smbios_crc (buf : List Nat) (start : Nat) : Nat → Nat
  | 0 => 0
  | len+1 => (smbios_crc buf start len + byteAt buf (start + len)) % 256

/-- Little-endian read of `w` bytes at position `p`. -/
def readLE (buf : List Nat) (p : Nat) : Nat → Nat
  | 0 => 0
  | w+1 => byteAt buf p + 256 * readLE buf (p+1) w

/-- Little-endian 16-bit read (record handle field). -/
def read16 (buf : List Nat) (p : Nat) : Nat := byteAt buf p + 256 * byteAt buf (p+1)

/-- Modelled from the spec: the 32-bit entry point anchor, a fixed
ASCII-derived byte pattern defined by the SMBIOS specification. -/
def anchor32 : List Nat := [0x5F, 0x53, 0x4D, 0x5F]

/-- Modelled from the spec: the 5-byte 64-bit entry point anchor. -/
def anchor64 : List Nat := [0x5F, 0x53, 0x4D, 0x33, 0x5F]

/-- Pattern match of `pat` at position `p`, entirely inside the buffer. -/
def matchesAt (buf : List Nat) (p : Nat) (pat : List Nat) : Bool :=
  decide (p + pat.length ≤ buf.length) &&
    (List.range pat.length).all (fun k => byteAt buf (p + k) == pat.getD k 0)

/-- Result of locating an entry point: width flag, version, table
location and the checksum range declared by the entry point. -/
structure EntryInfo where
  is64 : Bool
  major : Nat
  minor : Nat
  table_base : Nat
  table_length : Nat
  ep_offset : Nat
  ep_length : Nat
deriving DecidableEq

/-- Modelled from the spec (section 4.2; the locator body lives in the
missing smbios.cpp): try to overlay an entry point at position `p` — the
64-bit anchor first, then the 32-bit one — requiring enough trailing
bytes to cover the declared entry_point_length.  Field offsets follow the
packed structs SMBIOSEntryPoint64 / SMBIOSEntryPoint32 of smbios.h with
intptr_t taken as 8 bytes: for the 64-bit layout the length byte is at
p+6, version at p+7/p+8, table maximum size at p+11 (4 bytes) and table
address at p+15 (8 bytes); for the 32-bit layout the length byte is at
p+5, version at p+6/p+7, structure_table_length at p+22 (2 bytes) and
structure_table_address at p+24 (8 bytes). -/
def epAt (buf : List Nat) (p : Nat) : Option EntryInfo :=
  if matchesAt buf p anchor64 && decide (p + byteAt buf (p+6) ≤ buf.length) then
    some ⟨true, byteAt buf (p+7), byteAt buf (p+8),
          readLE buf (p+15) 8, readLE buf (p+11) 4, p, byteAt buf (p+6)⟩
  else if matchesAt buf p anchor32 && decide (p + byteAt buf (p+5) ≤ buf.length) then
    some ⟨false, byteAt buf (p+6), byteAt buf (p+7),
          readLE buf (p+24) 8, readLE buf (p+22) 2, p, byteAt buf (p+5)⟩
  else none

/-- Modelled from the spec: scan the buffer for the first offset holding
either anchor (section 4.2); `none` is the EntryPointNotFound outcome. -/
def locate (buf : List Nat) : Option EntryInfo :=
  (List.range buf.length).findSome? (fun p => epAt buf p)

/-- The table-level data exposed after construction: version, table
location, and the non-fatal checksum flag (SMBios::checksum_validated_). -/
structure TableInfo where
  major : Nat
  minor : Nat
  table_base : Nat
  table_length : Nat
  checksum_validated : Bool
deriving DecidableEq

/-- Modelled from the spec: table construction (the SMBios constructor
path in the missing smbios.cpp) — locate the entry point, expose the
located version/base/length, and record the checksum result as the
non-fatal flag rather than rejecting the table. -/
def construct_table (buf : List Nat) : Option TableInfo :=
  match locate buf with
  | none => none
  | some e =>
    some ⟨e.major, e.minor, e.table_base, e.table_length,
          decide (smbios_crc buf e.ep_offset e.ep_length = 0)⟩

/-- The five Memory Device layout generations of memory_device_entry.h
(structs MemoryDeviceV21 .. MemoryDeviceV28). -/
inductive MDGen
  | v21
  | v23
  | v26
  | v27
  | v28
deriving DecidableEq

/-- Position of a generation in the extension chain (each struct extends
the previous one by appending fields). -/
def genRank : MDGen → Nat
  | .v21 => 0
  | .v23 => 1
  | .v26 => 2
  | .v27 => 3
  | .v28 => 4

/-- Specification version introducing each generation (struct names/doc
comments of memory_device_entry.h: Ver 2.1+, 2.3+, 2.6+, 2.7+, 2.8+). -/
def genVersion : MDGen → SMBiosVersion
  | .v21 => ⟨2, 1⟩
  | .v23 => ⟨2, 3⟩
  | .v26 => ⟨2, 6⟩
  | .v27 => ⟨2, 7⟩
  | .v28 => ⟨2, 8⟩

/-- Total byte size of each packed layout generation, computed from the
field lists of memory_device_entry.h under #pragma pack(1): V21 holds the
4-byte header plus 17 bytes of fields, and each later struct appends its
trailing fields. -/
def genSize : MDGen → Nat
  | .v21 => 21
  | .v23 => 27
  | .v26 => 28
  | .v27 => 34
  | .v28 => 40

/-- The fixed-body fields of the Memory Device record
(memory_device_entry.h structs, in declaration order). -/
inductive MDField
  | array_handle
  | array_error_handle
  | total_width
  | data_width
  | device_size
  | device_form_factor
  | device_set
  | device_locator
  | bank_locator
  | device_type
  | type_detail
  | device_speed
  | manufacturer
  | serial_number
  | asset_tag
  | part_number
  | device_rank
  | extended_size
  | memory_clock_speed
  | minimum_voltage
  | maximum_voltage
  | configured_voltage
deriving DecidableEq

/-- Generation in which each field first appears. -/
def fieldGen : MDField → MDGen
  | .array_handle => .v21
  | .array_error_handle => .v21
  | .total_width => .v21
  | .data_width => .v21
  | .device_size => .v21
  | .device_form_factor => .v21
  | .device_set => .v21
  | .device_locator => .v21
  | .bank_locator => .v21
  | .device_type => .v21
  | .type_detail => .v21
  | .device_speed => .v23
  | .manufacturer => .v23
  | .serial_number => .v23
  | .asset_tag => .v23
  | .part_number => .v23
  | .device_rank => .v26
  | .extended_size => .v27
  | .memory_clock_speed => .v27
  | .minimum_voltage => .v28
  | .maximum_voltage => .v28
  | .configured_voltage => .v28

/-- Byte offset of each field inside the packed record body (header
bytes 0-3 included), from the struct layouts of memory_device_entry.h. -/
def fieldOffset : MDField → Nat
  | .array_handle => 4
  | .array_error_handle => 6
  | .total_width => 8
  | .data_width => 10
  | .device_size => 12
  | .device_form_factor => 14
  | .device_set => 15
  | .device_locator => 16
  | .bank_locator => 17
  | .device_type => 18
  | .type_detail => 19
  | .device_speed => 21
  | .manufacturer => 23
  | .serial_number => 24
  | .asset_tag => 25
  | .part_number => 26
  | .device_rank => 27
  | .extended_size => 28
  | .memory_clock_speed => 32
  | .minimum_voltage => 34
  | .maximum_voltage => 36
  | .configured_voltage => 38

/-- Byte width of each field, from the struct member types. -/
def fieldWidth : MDField → Nat
  | .array_handle => 2
  | .array_error_handle => 2
  | .total_width => 2
  | .data_width => 2
  | .device_size => 2
  | .device_form_factor => 1
  | .device_set => 1
  | .device_locator => 1
  | .bank_locator => 1
  | .device_type => 1
  | .type_detail => 2
  | .device_speed => 2
  | .manufacturer => 1
  | .serial_number => 1
  | .asset_tag => 1
  | .part_number => 1
  | .device_rank => 1
  | .extended_size => 4
  | .memory_clock_speed => 2
  | .minimum_voltage => 2
  | .maximum_voltage => 2
  | .configured_voltage => 2

/-- Modelled from the spec: a generation is usable for a record exactly
when its introducing version is ≤ the table's declared version and its
total byte size does not exceed the record's declared length (section
4.4; the selection code is the MemoryDeviceEntry constructor in the
missing memory_device_entry.cpp). -/
def genFits (g : MDGen) (ver : SMBiosVersion) (len : Nat) : Bool :=
  versionLe (genVersion g) ver && decide (genSize g ≤ len)

/-- Modelled from the spec: pick the richest available generation — the
first fitting one when scanning from the newest generation down. -/
def selectGen (ver : SMBiosVersion) (len : Nat) : Option MDGen :=
  if genFits MDGen.v28 ver len then some MDGen.v28
  else if genFits MDGen.v27 ver len then some MDGen.v27
  else if genFits MDGen.v26 ver len then some MDGen.v26
  else if genFits MDGen.v23 ver len then some MDGen.v23
  else if genFits MDGen.v21 ver len then some MDGen.v21
  else none

/-- Modelled from the spec: a field accessor of the Memory Device decoder
(the get_* members implemented in the missing memory_device_entry.cpp).
`body` is the record's fixed body, `len` its declared length; the
accessor yields the field's raw little-endian value when the field's
generation is available, and a "not present for this version" indication
(`none`) otherwise. -/
def getField (body : List Nat) (len : Nat) (ver : SMBiosVersion) (f : MDField) : Option Nat :=
  match selectGen ver len with
  | none => none
  | some g =>
    if genRank (fieldGen f) ≤ genRank g then
      some (readLE body (fieldOffset f) (fieldWidth f))
    else
      none

/-- enum DataWidthValue of memory_device_entry.h. -/
def DataWidthUnknown1 : Nat := 0x0

/-- enum DataWidthValue of memory_device_entry.h. -/
def DataWidthUnknown2 : Nat := 0xFFFF

/-- enum DeviceSizeValue of memory_device_entry.h. -/
def DeviceSizeNoModuleInstalled : Nat := 0x0

/-- enum DeviceSizeValue of memory_device_entry.h. -/
def DeviceSizeUnknown : Nat := 0xFFFF

/-- Modelled from the spec: the width decode map built by
`MemoryDeviceEntry::init_string_values` (missing
memory_device_entry.cpp); both sentinel raw values decode to "unknown",
other values render numerically. -/
def decode_width (w : Nat) : String :=
  if w = DataWidthUnknown1 ∨ w = DataWidthUnknown2 then "unknown" else toString w

/-- Modelled from the spec: the device-size decode map (missing
memory_device_entry.cpp); 0x0000 decodes to "no module installed" and
0xFFFF to "unknown". -/
def decode_device_size (s : Nat) : String :=
  if s = DeviceSizeNoModuleInstalled then "no module installed"
  else if s = DeviceSizeUnknown then "unknown"
  else toString s

/-- Modelled from the spec: `MemoryDeviceEntry::get_total_width_string`
sentinel decoding. -/
def get_total_width_string (w : Nat) : String := decode_width w

/-- Modelled from the spec: `MemoryDeviceEntry::get_data_width_string`
sentinel decoding. -/
def get_data_width_string (w : Nat) : String := decode_width w

/-- Modelled from the spec: `MemoryDeviceEntry::get_device_size_string`
sentinel decoding. -/
def get_device_size_string (s : Nat) : String := decode_device_size s

/-- A record header descriptor produced by the indexer: type, declared
length, handle, and the record's offset in the table region (spec
section 3, RecordHeader). -/
structure RecordHeader where
  type : Nat
  length : Nat
  handle : Nat
  offset : Nat
deriving DecidableEq

/-- Error reported by the indexer (spec section 7). -/
inductive IndexError
  | MalformedRecordStream
deriving DecidableEq

/-- Modelled from the spec: the byte-by-byte scan past a record's string
table — advance until two consecutive zero bytes are found and resume
just after that double terminator (section 4.3; the loop body lives in
the missing smbios.cpp).  With the zero-padded buffer model the scan
always finds a double zero by the end of the buffer, which the fuel
covers. -/
def skipStringsGo (buf : List Nat) : Nat → Nat → Nat
  | q, 0 => q + 2
  | q, fuel+1 =>
    if byteAt buf q = 0 ∧ byteAt buf (q+1) = 0 then q + 2
    else skipStringsGo buf (q+1) fuel

/-- Modelled from the spec: string-table skip starting at `q`. -/
def skipStrings (buf : List Nat) (q : Nat) : Nat := skipStringsGo buf q (buf.length + 1)

/-- Modelled from the spec: the record-indexing loop of
`SMBios::read_smbios_table` (declared in smbios.h, body in the missing
smbios.cpp), per section 4.3: while the running offset is below the table
end, read the 4-byte header, abort with MalformedRecordStream when the
declared length is below 4, stop cleanly after consuming an EndOfTable
(type 127) record, and otherwise skip the trailing string table and
continue. -/
def buildIndexGo (buf : List Nat) (endOff : Nat) :
    Nat → Nat → List RecordHeader → List RecordHeader × Option IndexError
  | _, 0, acc => (acc.reverse, some .MalformedRecordStream)
  | off, fuel+1, acc =>
    if endOff ≤ off then (acc.reverse, none)
    else if byteAt buf (off+1) < 4 then (acc.reverse, some .MalformedRecordStream)
    else if byteAt buf off = 127 then
      ((⟨byteAt buf off, byteAt buf (off+1), read16 buf (off+2), off⟩ :: acc).reverse, none)
    else
      buildIndexGo buf endOff (skipStrings buf (off + byteAt buf (off+1))) fuel
        (⟨byteAt buf off, byteAt buf (off+1), read16 buf (off+2), off⟩ :: acc)

/-- Modelled from the spec: `build_index(buffer, table_base,
table_length)` of section 4.3. -/
def build_index (buf : List Nat) (base tlen : Nat) :
    List RecordHeader × Option IndexError :=
  buildIndexGo buf (base + tlen) base (tlen + 1) []

/-- The hypothesis of the C4 scenario, as a decidable predicate: starting
at `off`, records with declared length ≥ 4 and type ≠ 127 chain (each
next offset obtained by the string-table skip) and land exactly on
`endOff`. -/
def cleanChain (buf : List Nat) (endOff : Nat) : Nat → Nat → Bool
  | _, 0 => false
  | off, fuel+1 =>
    if endOff ≤ off then decide (off = endOff)
    else
      decide (4 ≤ byteAt buf (off+1)) && !(decide (byteAt buf off = 127)) &&
        cleanChain buf endOff (skipStrings buf (off + byteAt buf (off+1))) fuel


/-! Helper lemmas about the byte-level reading primitives. -/

theorem byteAt_nil (p : Nat) : byteAt [] p = 0 := by
  cases p <;> rfl

theorem byteAt_drop (buf : List Nat) (p k : Nat) :
    byteAt (buf.drop p) k = byteAt buf (p + k) := by
  induction p generalizing buf with
  | zero => simp [byteAt]
  | succ p ih =>
    cases buf with
    | nil => simp [byteAt]
    | cons a t =>
      show byteAt (t.drop p) k = byteAt (a :: t) (p + 1 + k)
      rw [ih]
      have hidx : p + 1 + k = (p + k) + 1 := by omega
      rw [hidx]
      rfl

theorem firstRun_eq_nil {l : List Nat} (h : byteAt l 0 = 0) : firstRun l = [] := by
  cases l with
  | nil => rfl
  | cons a t =>
    have ha : a = 0 := h
    simp [firstRun, List.takeWhile_cons, ha]

theorem cstr_eq_nil {buf : List Nat} {p : Nat} (h : byteAt buf p = 0) :
    cstr buf p = [] := by
  apply firstRun_eq_nil
  rw [byteAt_drop]
  simpa using h

theorem parseFrom_double_nul {buf : List Nat} {p : Nat}
    (h0 : byteAt buf p = 0) (h1 : byteAt buf (p + 1) = 0) (fuel : Nat) :
    parseFrom buf p fuel = [[]] := by
  cases fuel with
  | zero => simp [parseFrom, cstr_eq_nil h0]
  | succ n =>
    have hn : nextPos buf p = p + 1 := by simp [nextPos, cstr_eq_nil h0]
    simp [parseFrom, hn, h1, cstr_eq_nil h0]

theorem parseFrom_cons (buf : List Nat) (p fuel : Nat) :
    ∃ t, parseFrom buf p fuel = cstr buf p :: t := by
  cases fuel with
  | zero => exact ⟨[], rfl⟩
  | succ n =>
    by_cases hc :
        (byteAt buf (nextPos buf p) != 0 && byteAt buf (nextPos buf p + 1) != 0) = true
    · exact ⟨parseFrom buf (nextPos buf p) n, by simp [parseFrom, hc]⟩
    · exact ⟨[], by simp [parseFrom, hc]⟩

theorem restOf_drop (buf : List Nat) (p : Nat) :
    restOf (buf.drop p) = buf.drop (nextPos buf p) := by
  show (buf.drop p).drop ((firstRun (buf.drop p)).length + 1) = buf.drop (nextPos buf p)
  rw [List.drop_drop]
  congr 1

theorem parseFrom_eq_amendedGo (buf : List Nat) (fuel : Nat) : ∀ p : Nat,
    parseFrom buf p fuel = amendedExtractGo (buf.drop p) fuel := by
  induction fuel with
  | zero => intro p; rfl
  | succ n ih =>
    intro p
    have h0 : byteAt (restOf (buf.drop p)) 0 = byteAt buf (nextPos buf p) := by
      rw [restOf_drop, byteAt_drop]
      simp
    have h1 : byteAt (restOf (buf.drop p)) 1 = byteAt buf (nextPos buf p + 1) := by
      rw [restOf_drop, byteAt_drop]
    simp only [parseFrom, amendedExtractGo, h0, h1]
    rw [restOf_drop, ih (nextPos buf p)]
    rfl

theorem amendedGo_fuel (f1 : Nat) : ∀ (l : List Nat) (f2 : Nat),
    l.length ≤ f1 → l.length ≤ f2 → amendedExtractGo l f1 = amendedExtractGo l f2 := by
  induction f1 with
  | zero =>
    intro l f2 h1 _
    have hl : l = [] := List.eq_nil_of_length_eq_zero (Nat.le_zero.mp h1)
    subst hl
    cases f2 with
    | zero => rfl
    | succ m => simp [amendedExtractGo, restOf, firstRun, byteAt]
  | succ n ih =>
    intro l f2 h1 h2
    cases f2 with
    | zero =>
      have hl : l = [] := List.eq_nil_of_length_eq_zero (Nat.le_zero.mp h2)
      subst hl
      simp [amendedExtractGo, restOf, firstRun, byteAt]
    | succ m =>
      simp only [amendedExtractGo]
      by_cases hc : (byteAt (restOf l) 0 != 0 && byteAt (restOf l) 1 != 0) = true
      · rw [if_pos hc, if_pos hc]
        have hne : restOf l ≠ [] := by
          intro he
          rw [he] at hc
          simp [byteAt] at hc
        have hlne : l ≠ [] := by
          intro he
          apply hne
          rw [he]
          rfl
        have hpos : 0 < l.length := List.length_pos.mpr hlne
        have hlen : (restOf l).length < l.length := by
          show (l.drop ((firstRun l).length + 1)).length < l.length
          rw [List.length_drop]
          omega
        rw [ih (restOf l) m (by omega) (by omega)]
      · rw [if_neg hc, if_neg hc]

/-- C1 counterexample: for the record whose string section is the
immediate double NUL [0,0], the extracted table does not have exactly one
entry, and the lookup at index 1 does not return "Bad index" (it returns
the empty string pushed by the do/while body). -/
theorem string_table_double_nul_cex :
    (parse_dmi_strings ⟨17, 0, 0, some [0, 0]⟩).length ≠ 1 ∧
    dmi_string (parse_dmi_strings ⟨17, 0, 0, some [0, 0]⟩) 1 ≠ "Bad index" ∧
    dmi_string (parse_dmi_strings ⟨17, 0, 0, some [0, 0]⟩) 1 = "" := by decide

/-- C1 (amended): for a record whose string section starts with two zero
bytes, the do/while body runs once, so the table has exactly two entries —
the sentinel and the empty string at index 1 — and every lookup with
index ≥ 2 returns "Bad index". -/
theorem string_table_double_nul (h : DMIHeader) (buf : List Nat)
    (hdata : h.data = some buf) (h0 : byteAt buf h.length = 0)
    (h1 : byteAt buf (h.length + 1) = 0) :
    parse_dmi_strings h = ["Not Specified", ""] ∧
    ∀ i, 2 ≤ i → dmi_string (parse_dmi_strings h) i = "Bad index" := by
  have hp : parse_dmi_strings h = ["Not Specified", ""] := by
    simp only [parse_dmi_strings, hdata]
    rw [parseFrom_double_nul h0 h1]
    decide
  refine ⟨hp, ?_⟩
  intro i hi
  rw [hp]
  simp [dmi_string, hi]

/-- C1 witness: the amended law evaluated on a concrete record with an
immediate double-NUL string section. -/
theorem string_table_double_nul_w :
    parse_dmi_strings ⟨17, 0, 0, some [0, 0]⟩ = ["Not Specified", ""] ∧
    dmi_string (parse_dmi_strings ⟨17, 0, 0, some [0, 0]⟩) 2 = "Bad index" := by
  have h := string_table_double_nul ⟨17, 0, 0, some [0, 0]⟩ [0, 0] rfl (by decide) (by decide)
  exact ⟨h.1, h.2 2 (by decide)⟩

/-- C2 counterexample: on the string section "A\x00B\x00\x00" the source
loop stops after reading "A" — the position it stops at holds the bytes
66, 0, which are not two consecutive zeros — so the table is not the
sentinel followed by the file-order runs up to the double NUL (which
would be "A", "B" per the spec wording formalised by specExtract). -/
theorem string_table_extraction_cex :
    parse_dmi_strings ⟨17, 0, 0, some [65, 0, 66, 0, 0]⟩ ≠
      "Not Specified" :: (specExtract [65, 0, 66, 0, 0] 0).map bytesToString ∧
    parse_dmi_strings ⟨17, 0, 0, some [65, 0, 66, 0, 0]⟩ = ["Not Specified", "A"] ∧
    "Not Specified" :: (specExtract [65, 0, 66, 0, 0] 0).map bytesToString =
      ["Not Specified", "A", "B"] := by decide

/-- C2 (amended): extraction starts immediately after the fixed body at
`header.data + header.length`; the first NUL-terminated run is always
appended (do/while), and after each appended run the loop continues only
when the two bytes at the advanced position are both nonzero — it stops
as soon as either of them is zero, which can drop later runs; a null
section pointer yields the sentinel-only table. -/
theorem string_table_extraction_amended (h : DMIHeader) :
    (h.data = none → parse_dmi_strings h = ["Not Specified"]) ∧
    (∀ buf, h.data = some buf →
      parse_dmi_strings h =
        "Not Specified" :: (amendedExtract (buf.drop h.length)).map bytesToString) := by
  constructor
  · intro hn
    simp [parse_dmi_strings, hn]
  · intro buf hb
    simp only [parse_dmi_strings, hb]
    have hfuel := amendedGo_fuel buf.length (buf.drop h.length) (buf.drop h.length).length
      (by rw [List.length_drop]; omega) le_rfl
    rw [parseFrom_eq_amendedGo, amendedExtract, hfuel]

/-- C2 witness: the amended extraction law evaluated on a concrete record
(fixed body of length 1 followed by the section [65,0,0]). -/
theorem string_table_extraction_w :
    parse_dmi_strings ⟨17, 1, 0, some [7, 65, 0, 0]⟩ =
      "Not Specified" ::
        (amendedExtract (([7, 65, 0, 0] : List Nat).drop 1)).map bytesToString :=
  (string_table_extraction_amended ⟨17, 1, 0, some [7, 65, 0, 0]⟩).2 [7, 65, 0, 0] rfl

/-- C7 counterexample: an out-of-range lookup returns "Bad index", not the
sentinel "Not Specified" that the claim announces for out-of-range
indices. -/
theorem dmi_string_lookup_cex :
    dmi_string (parse_dmi_strings ⟨17, 0, 0, some [65, 0, 0]⟩) 2 = "Bad index" ∧
    dmi_string (parse_dmi_strings ⟨17, 0, 0, some [65, 0, 0]⟩) 2 ≠ "Not Specified" := by
  decide

/-- C7 (amended): lookup at index 0 of any extracted table returns the
sentinel "Not Specified"; lookup at any index at or beyond the parsed
count returns the error string "Bad index"; lookup at an in-range index
returns the stored entry — the lookup is a total function, so it never
crashes and the out-of-range case never escalates. -/
theorem dmi_string_lookup :
    (∀ h : DMIHeader, dmi_string (parse_dmi_strings h) 0 = "Not Specified") ∧
    (∀ (strings : List String) (i : Nat), strings.length ≤ i →
      dmi_string strings i = "Bad index") ∧
    (∀ (strings : List String) (i : Nat), i < strings.length →
      dmi_string strings i = strings.getD i "") := by
  refine ⟨?_, ?_, ?_⟩
  · intro h
    cases hd : h.data with
    | none => simp [parse_dmi_strings, hd, dmi_string]
    | some buf => simp [parse_dmi_strings, hd, dmi_string]
  · intro strings i hi
    simp [dmi_string, hi]
  · intro strings i hi
    simp only [dmi_string]
    rw [if_neg (Nat.not_le.mpr hi)]

/-- C7 witness: the amended lookup law at concrete inputs. -/
theorem dmi_string_lookup_w :
    dmi_string (parse_dmi_strings ⟨17, 0, 0, none⟩) 0 = "Not Specified" ∧
    dmi_string ["Not Specified"] 3 = "Bad index" ∧
    dmi_string ["Not Specified"] 0 = (["Not Specified"] : List String).getD 0 "" := by
  exact ⟨dmi_string_lookup.1 ⟨17, 0, 0, none⟩,
    dmi_string_lookup.2.1 ["Not Specified"] 3 (by decide),
    dmi_string_lookup.2.2 ["Not Specified"] 0 (by decide)⟩

/-- C10 (confirmed): whenever the string-section pointer is non-null the
do/while body appends a run before testing the loop condition, so the
table holds at least two entries — the sentinel at index 0 plus the first
parsed run at index 1 — and when the section begins with a NUL byte that
first run is the empty string. -/
theorem parse_dmi_strings_nonempty (h : DMIHeader) (buf : List Nat)
    (hdata : h.data = some buf) :
    2 ≤ (parse_dmi_strings h).length ∧
    (parse_dmi_strings h).getD 0 "" = "Not Specified" ∧
    (byteAt buf h.length = 0 → (parse_dmi_strings h).get? 1 = some "") := by
  obtain ⟨t, ht⟩ := parseFrom_cons buf h.length buf.length
  have hp : parse_dmi_strings h =
      "Not Specified" :: bytesToString (cstr buf h.length) :: t.map bytesToString := by
    simp [parse_dmi_strings, hdata, ht]
  refine ⟨?_, ?_, ?_⟩
  · rw [hp]
    simp
  · rw [hp]
    rfl
  · intro h0
    rw [hp]
    simp [cstr_eq_nil h0, bytesToString]

/-- C10 witness: a concrete record whose section begins with a NUL byte. -/
theorem parse_dmi_strings_nonempty_w :
    2 ≤ (parse_dmi_strings ⟨17, 0, 0, some [0, 65, 0, 0]⟩).length ∧
    (parse_dmi_strings ⟨17, 0, 0, some [0, 65, 0, 0]⟩).getD 0 "" = "Not Specified" ∧
    (parse_dmi_strings ⟨17, 0, 0, some [0, 65, 0, 0]⟩).get? 1 = some "" := by
  have h := parse_dmi_strings_nonempty ⟨17, 0, 0, some [0, 65, 0, 0]⟩ [0, 65, 0, 0] rfl
  exact ⟨h.1, h.2.1, h.2.2 (by decide)⟩


/-! Helper lemmas for the Memory Device version selection (C3). -/

theorem genFits_size {g : MDGen} {ver : SMBiosVersion} {len : Nat}
    (h : genFits g ver len = true) : genSize g ≤ len := by
  have h2 := ((Bool.and_eq_true _ _).mp h).2
  exact of_decide_eq_true h2

theorem genRank_le_size {a b : MDGen} (h : genRank a ≤ genRank b) :
    genSize a ≤ genSize b := by
  revert h
  cases a <;> cases b <;> decide

theorem genRank_le_version {a b : MDGen} (h : genRank a ≤ genRank b) :
    versionLe (genVersion a) (genVersion b) = true := by
  revert h
  cases a <;> cases b <;> decide

theorem field_within (f : MDField) :
    fieldOffset f + fieldWidth f ≤ genSize (fieldGen f) := by
  cases f <;> decide

theorem selectGen_fits {ver : SMBiosVersion} {len : Nat} {g : MDGen}
    (hg : selectGen ver len = some g) :
    genFits g ver len = true ∧
    ∀ g2, genFits g2 ver len = true → genRank g2 ≤ genRank g := by
  simp only [selectGen] at hg
  split_ifs at hg with h28 h27 h26 h23 h21
  · injection hg with hg
    subst hg
    refine ⟨h28, fun g2 _ => ?_⟩
    cases g2 <;> decide
  · injection hg with hg
    subst hg
    refine ⟨h27, fun g2 h2 => ?_⟩
    cases g2
    · decide
    · decide
    · decide
    · decide
    · exact absurd h2 h28
  · injection hg with hg
    subst hg
    refine ⟨h26, fun g2 h2 => ?_⟩
    cases g2
    · decide
    · decide
    · decide
    · exact absurd h2 h27
    · exact absurd h2 h28
  · injection hg with hg
    subst hg
    refine ⟨h23, fun g2 h2 => ?_⟩
    cases g2
    · decide
    · decide
    · exact absurd h2 h26
    · exact absurd h2 h27
    · exact absurd h2 h28
  · injection hg with hg
    subst hg
    refine ⟨h21, fun g2 h2 => ?_⟩
    cases g2
    · decide
    · exact absurd h2 h23
    · exact absurd h2 h26
    · exact absurd h2 h27
    · exact absurd h2 h28

/-- C3 (confirmed, spec-modelled): the Memory Device decoder selects the
generation introduced at the highest specification version among those
whose introducing version is ≤ the table's declared version and whose
total byte size fits within the record's declared length; a field accessor
whose generation is newer than the selected one yields the "not present
for this version" indication, accessors yield nothing when no generation
fits at all, and any successful field read lies entirely below the
declared length. -/
theorem memory_device_versioning (body : List Nat) (ver : SMBiosVersion) (len : Nat)
    (f : MDField) :
    (∀ g, selectGen ver len = some g →
      genFits g ver len = true ∧
      ∀ g2, genFits g2 ver len = true →
        versionLe (genVersion g2) (genVersion g) = true) ∧
    (∀ g, selectGen ver len = some g → genRank g < genRank (fieldGen f) →
      getField body len ver f = none) ∧
    (selectGen ver len = none → getField body len ver f = none) ∧
    (∀ v, getField body len ver f = some v → fieldOffset f + fieldWidth f ≤ len) := by
  refine ⟨?_, ?_, ?_, ?_⟩
  · intro g hg
    obtain ⟨hfit, hmax⟩ := selectGen_fits hg
    exact ⟨hfit, fun g2 h2 => genRank_le_version (hmax g2 h2)⟩
  · intro g hg hlt
    simp only [getField, hg]
    rw [if_neg (by omega)]
  · intro hn
    simp [getField, hn]
  · intro v hv
    cases hsel : selectGen ver len with
    | none => simp [getField, hsel] at hv
    | some g =>
      simp only [getField, hsel] at hv
      by_cases hle : genRank (fieldGen f) ≤ genRank g
      · calc fieldOffset f + fieldWidth f ≤ genSize (fieldGen f) := field_within f
          _ ≤ genSize g := genRank_le_size hle
          _ ≤ len := genFits_size (selectGen_fits hsel).1
      · rw [if_neg hle] at hv
        exact Option.noConfusion hv

/-- C3 witness: a version-3.0 table with a record of declared length 0x1B
selects the 2.3 generation, and the rank field (introduced in 2.6) is
reported not present. -/
theorem memory_device_versioning_w :
    selectGen ⟨3, 0⟩ 27 = some MDGen.v23 ∧
    getField [] 27 ⟨3, 0⟩ MDField.device_rank = none := by
  refine ⟨by decide, ?_⟩
  exact (memory_device_versioning [] ⟨3, 0⟩ 27 MDField.device_rank).2.1 MDGen.v23
    (by decide) (by decide)

/-- C4 (confirmed, spec-modelled): record indexing stops cleanly as soon
as the running offset reaches or passes the table end, stops cleanly
right after consuming an EndOfTable (127) record, and — the scenario the
claim singles out — on a record stream missing the EndOfTable terminator
whose chained next-offsets land exactly on table_base + table_length, the
index is produced with no MalformedRecordStream error. -/
theorem record_indexing_termination (buf : List Nat) :
    (∀ endOff off fuel acc, endOff ≤ off →
      buildIndexGo buf endOff off (fuel+1) acc = (acc.reverse, none)) ∧
    (∀ endOff off fuel acc, off < endOff → 4 ≤ byteAt buf (off+1) →
      byteAt buf off = 127 →
      buildIndexGo buf endOff off (fuel+1) acc =
        ((⟨byteAt buf off, byteAt buf (off+1), read16 buf (off+2), off⟩ :: acc).reverse,
          none)) ∧
    (∀ endOff fuel off acc, cleanChain buf endOff off fuel = true →
      (buildIndexGo buf endOff off fuel acc).2 = none) ∧
    (∀ base tlen, cleanChain buf (base+tlen) base (tlen+1) = true →
      (build_index buf base tlen).2 = none) := by
  have key : ∀ endOff fuel off acc, cleanChain buf endOff off fuel = true →
      (buildIndexGo buf endOff off fuel acc).2 = none := by
    intro endOff fuel
    induction fuel with
    | zero =>
      intro off acc hc
      simp [cleanChain] at hc
    | succ n ih =>
      intro off acc hc
      simp only [cleanChain] at hc
      simp only [buildIndexGo]
      by_cases hoff : endOff ≤ off
      · rw [if_pos hoff]
      · rw [if_neg hoff] at hc
        rw [if_neg hoff]
        have hparts := (Bool.and_eq_true _ _).mp hc
        have h4 : 4 ≤ byteAt buf (off+1) :=
          of_decide_eq_true ((Bool.and_eq_true _ _).mp hparts.1).1
        have h127 : ¬ byteAt buf off = 127 := by
          have := ((Bool.and_eq_true _ _).mp hparts.1).2
          simpa using this
        rw [if_neg (by omega), if_neg h127]
        exact ih _ _ hparts.2
  refine ⟨?_, ?_, key, ?_⟩
  · intro endOff off fuel acc hle
    simp [buildIndexGo, hle]
  · intro endOff off fuel acc h1 h4 h127
    simp only [buildIndexGo]
    rw [if_neg (Nat.not_le.mpr h1), if_neg (by omega), if_pos h127]
  · intro base tlen hc
    exact key (base + tlen) (tlen + 1) base [] hc

/-- C4 witness: a table region holding a single type-17 record of length
4 followed by an empty string table, with no EndOfTable record, whose
next-offset lands exactly on the table end: indexing reports no error. -/
theorem record_indexing_termination_w :
    cleanChain [17, 4, 0, 0, 0, 0] (0 + 6) 0 (6 + 1) = true ∧
    (build_index [17, 4, 0, 0, 0, 0] 0 6).2 = none := by
  refine ⟨by decide, ?_⟩
  exact (record_indexing_termination [17, 4, 0, 0, 0, 0]).2.2.2 0 6 (by decide)


/-! Helper lemmas for the checksum (C5). -/

theorem byteAt_set_eq (buf : List Nat) (i b : Nat) (h : i < buf.length) :
    byteAt (buf.set i b) i = b := by
  induction buf generalizing i with
  | nil => simp at h
  | cons a t ih =>
    cases i with
    | zero => rfl
    | succ n => exact ih n (by simpa using h)

theorem byteAt_set_ne (buf : List Nat) (i b k : Nat) (h : k ≠ i) :
    byteAt (buf.set i b) k = byteAt buf k := by
  induction buf generalizing i k with
  | nil => rfl
  | cons a t ih =>
    cases i with
    | zero =>
      cases k with
      | zero => exact absurd rfl h
      | succ n => rfl
    | succ m =>
      cases k with
      | zero => rfl
      | succ n => exact ih m n (by omega)

theorem smbios_crc_congr (buf1 buf2 : List Nat) (start : Nat) :
    ∀ len, (∀ k, k < len → byteAt buf1 (start + k) = byteAt buf2 (start + k)) →
      smbios_crc buf1 start len = smbios_crc buf2 start len := by
  intro len
  induction len with
  | zero => intro _; rfl
  | succ n ih =>
    intro hk
    simp only [smbios_crc]
    rw [ih (fun k h => hk k (by omega)), hk n (by omega)]

theorem smbios_crc_eq_sum (buf : List Nat) (start : Nat) : ∀ len,
    smbios_crc buf start len =
      ((List.range len).map (fun k => byteAt buf (start + k))).sum % 256 := by
  intro len
  induction len with
  | zero => rfl
  | succ n ih =>
    simp only [smbios_crc, ih, List.range_succ, List.map_append, List.sum_append,
      List.map_cons, List.map_nil, List.sum_cons, List.sum_nil]
    omega

theorem smbios_crc_flip (buf : List Nat) (i b start : Nat) (hib : i < buf.length) :
    ∀ len, start ≤ i → i < start + len →
      (smbios_crc (buf.set i b) start len + byteAt buf i) % 256 =
      (smbios_crc buf start len + b) % 256 := by
  intro len
  induction len with
  | zero => intro h1 h2; omega
  | succ n ih =>
    intro h1 h2
    simp only [smbios_crc]
    by_cases hi : i = start + n
    · have hcong : smbios_crc (buf.set i b) start n = smbios_crc buf start n :=
        smbios_crc_congr _ _ _ n (fun k hk => byteAt_set_ne _ _ _ _ (by omega))
      rw [hcong, ← hi, byteAt_set_eq _ _ _ hib]
      omega
    · have hlt : i < start + n := by omega
      rw [byteAt_set_ne _ _ _ _ (by omega : start + n ≠ i)]
      have hih := ih h1 hlt
      omega

/-- C5 (confirmed, spec-modelled): the checksum validator accepts a byte
range exactly when the 8-bit sum of all bytes of [start, start+length) is
zero modulo 256, and flipping any single in-range byte to a different
byte value turns an accepted range into a rejected one. -/
theorem smbios_crc_spec (buf : List Nat) (start len : Nat) :
    (smbios_crc buf start len = 0 ↔
      ((List.range len).map (fun k => byteAt buf (start + k))).sum % 256 = 0) ∧
    (∀ i b, start ≤ i → i < start + len → i < buf.length → b < 256 →
      byteAt buf i < 256 → b ≠ byteAt buf i → smbios_crc buf start len = 0 →
      ¬ smbios_crc (buf.set i b) start len = 0) := by
  constructor
  · rw [smbios_crc_eq_sum]
  · intro i b h1 h2 h3 hb ho hne h0 hset
    have hf := smbios_crc_flip buf i b start h3 len h1 h2
    rw [hset, h0] at hf
    omega

/-- C5 witness: the range [1, 255] sums to zero modulo 256 and is
accepted; flipping its first byte to 2 is rejected. -/
theorem smbios_crc_spec_w :
    smbios_crc [1, 255] 0 2 = 0 ∧
    ¬ smbios_crc (([1, 255] : List Nat).set 0 2) 0 2 = 0 := by
  refine ⟨by decide, ?_⟩
  exact (smbios_crc_spec [1, 255] 0 2).2 0 2 (by decide) (by decide) (by decide)
    (by decide) (by decide) (by decide) (by decide)

/-- C6 (confirmed, spec-modelled): when an entry point is located but its
declared checksum range does not sum to zero, table construction still
succeeds and exposes all locating results — version, table base and table
length — with only the checksum_validated flag recorded as false. -/
theorem construct_table_nonfatal (buf : List Nat) (e : EntryInfo)
    (hl : locate buf = some e)
    (hc : ¬ smbios_crc buf e.ep_offset e.ep_length = 0) :
    construct_table buf =
      some ⟨e.major, e.minor, e.table_base, e.table_length, false⟩ := by
  simp only [construct_table]
  rw [hl]
  simp [decide_eq_false hc]

/-- C6 witness: a buffer holding a 32-bit anchor whose declared 8-byte
checksum range sums to 112 modulo 256; construction still exposes the
located version (2.8 here) with the flag false. -/
theorem construct_table_nonfatal_w :
    locate [95, 83, 77, 95, 0, 8, 2, 8] = some ⟨false, 2, 8, 0, 0, 0, 8⟩ ∧
    construct_table [95, 83, 77, 95, 0, 8, 2, 8] = some ⟨2, 8, 0, 0, false⟩ := by
  refine ⟨by decide, ?_⟩
  exact construct_table_nonfatal [95, 83, 77, 95, 0, 8, 2, 8]
    ⟨false, 2, 8, 0, 0, 0, 8⟩ (by decide) (by decide)

/-- C8 (confirmed, spec-modelled): for both width accessors the raw
values 0x0000 and 0xFFFF decode to "unknown"; for the device size 0x0000
decodes to "no module installed" and 0xFFFF to "unknown", and the two
size decodings are distinct. -/
theorem width_size_sentinels :
    get_total_width_string 0x0 = "unknown" ∧
    get_total_width_string 0xFFFF = "unknown" ∧
    get_data_width_string 0x0 = "unknown" ∧
    get_data_width_string 0xFFFF = "unknown" ∧
    get_device_size_string 0x0 = "no module installed" ∧
    get_device_size_string 0xFFFF = "unknown" ∧
    get_device_size_string 0x0 ≠ get_device_size_string 0xFFFF := by decide

/-- C9 (confirmed, spec-modelled): the SMBiosVersion operators compare
lexicographically on the (major, minor) pair, and the greater-than
operator is the mirror of less-than. -/
theorem version_ordering_lex (lhs rhs : SMBiosVersion) :
    (versionLt lhs rhs = true ↔
      lhs.major_version < rhs.major_version ∨
        (lhs.major_version = rhs.major_version ∧
          lhs.minor_version < rhs.minor_version)) ∧
    (versionGt lhs rhs = true ↔
      rhs.major_version < lhs.major_version ∨
        (rhs.major_version = lhs.major_version ∧
          rhs.minor_version < lhs.minor_version)) ∧
    versionGt lhs rhs = versionLt rhs lhs := by
  refine ⟨?_, ?_, rfl⟩
  · simp [versionLt]
  · simp [versionGt]

/-- C9 witness: the ordering law instantiated at concrete versions. -/
theorem version_ordering_lex_w :
    versionGt ⟨2, 7⟩ ⟨2, 3⟩ = versionLt ⟨2, 3⟩ ⟨2, 7⟩ :=
  (version_ordering_lex ⟨2, 7⟩ ⟨2, 3⟩).2.2

end smbios
